import Mathlib

/-!
Verification development for the logcatAI core engine.

Shallow embedding of the core components:
* `LogParser` (src/core/parser.py) — fallback line parser and display classifier
* `ErrorDetector` (src/core/detector.py) — ordered first-match pattern detector
* `LogBuffer` (src/core/buffer.py) — bounded sliding-window store with context query
* `LogTableModel` (src/ui/log_table/log_model.py) — filtered virtualized store

Strings are modelled as `String` with char-level work on `List Char`.
The fixed regular expressions of the source are translated into
deterministic backtracking matchers over `List Char` with the same
greedy/lazy candidate order as the Python `re` engine.
User-supplied keyword regexes (an external `re` capability) are modelled
by an abstract compile function `String → Bool → Option (String → Bool)`
(pattern, case-sensitive flag ↦ search predicate; `none` = compile error).
-/

/-! ## Character and string helpers -/

/-- Python `\s` (ASCII range): space, tab, newline, carriage return,
vertical tab, form feed. -/
def isPySpace (c : Char) : Bool :=
  c = ' ' || c = '\t' || c = '\n' || c = '\r' || c = Char.ofNat 11 || c = Char.ofNat 12

/-- Python `str.strip()` on a char list: drop whitespace at both ends. -/
def stripChars (s : List Char) : List Char :=
  ((s.dropWhile isPySpace).reverse.dropWhile isPySpace).reverse

/-- Python `str.lower()` (ASCII scope, which covers all inputs used here). -/
def lowerChars (s : List Char) : List Char := s.map Char.toLower

/-- Python `str.upper()` on a `String` (ASCII scope). -/
def upperStr (s : String) : String := String.mk (s.data.map Char.toUpper)

/-- Python substring test `needle in hay`. -/
def containsSub (needle : List Char) : List Char → Bool
  | [] => needle.isEmpty
  | c :: rest => needle.isPrefixOf (c :: rest) || containsSub needle rest

/-- Match a single char of a class (regex `[...]`), return the rest. -/
def chClass (p : Char → Bool) : List Char → Option (List Char)
  | c :: rest => if p c then some rest else none
  | [] => none

/-- Match a single char of a class and return it with the rest
(used where the char is a capture group). -/
def chClassGet (p : Char → Bool) : List Char → Option (Char × List Char)
  | c :: rest => if p c then some (c, rest) else none
  | [] => none

/-- Match one literal char. -/
def chLit (c : Char) : List Char → Option (List Char)
  | d :: rest => if d = c then some rest else none
  | [] => none

/-- Match exactly `n` chars of a class (regex `X{n}`). -/
def chCount (p : Char → Bool) : Nat → List Char → Option (List Char)
  | 0, s => some s
  | n + 1, s => (chClass p s).bind (chCount p n)

/-- All splits `(run, rest)` of `s` where `run` is a (possibly empty) run of
chars satisfying `p`, longest run first: the candidate order of a greedy
starred char class `[..]*` in the `re` engine. -/
def greedySplits (p : Char → Bool) : List Char → List (List Char × List Char)
  | [] => [([], [])]
  | c :: cs =>
    if p c then
      (greedySplits p cs).map (fun pr => (c :: pr.1, pr.2)) ++ [([], c :: cs)]
    else [([], c :: cs)]

/-- Greedy candidates of `[..]+` (nonempty runs, longest first). -/
def greedySplits1 (p : Char → Bool) : List Char → List (List Char × List Char)
  | [] => []
  | c :: cs =>
    if p c then (greedySplits p cs).map (fun pr => (c :: pr.1, pr.2)) else []

/-- Lazy candidates of `[..]*?` (shortest run first). -/
def lazySplits (p : Char → Bool) : List Char → List (List Char × List Char)
  | [] => [([], [])]
  | c :: cs =>
    ([], c :: cs) :: (if p c then (lazySplits p cs).map (fun pr => (c :: pr.1, pr.2)) else [])

/-- Case-insensitive literal prefix match: drop `key` from the head of `s`
comparing lowercased chars; `none` when `s` does not start with `key`. -/
def dropPrefixCI : List Char → List Char → Option (List Char)
  | [], s => some s
  | _ :: _, [] => none
  | k :: ks, c :: cs => if c.toLower = k.toLower then dropPrefixCI ks cs else none

/-- Python `str.split()`: split on whitespace runs, no empty items.
(Structural right-to-left formulation: a non-space char either starts a new
word — when followed by a space or the end — or extends the first word of
the tail split.) -/
def splitWs : List Char → List (List Char)
  | [] => []
  | c :: rest =>
    let tailSplit := splitWs rest
    if isPySpace c then tailSplit
    else
      match rest, tailSplit with
      | [], _ => [[c]]
      | d :: _, w :: ws => if isPySpace d then [c] :: (w :: ws) else (c :: w) :: ws
      | _ :: _, [] => [[c]]

/-! ## LogParser (src/core/parser.py) -/

/-- A parsed log line: the dict produced by `LogParser.parse`
(keys timestamp, level, pid, tid, tag, message, display). -/
structure LogRecord where
  timestamp : String
  level : String
  pid : String
  tid : String
  tag : String
  message : String
  display : String
deriving DecidableEq

namespace LogParser

/-- Level class `[VDIWEAF]` of the threadtime fallback pattern. -/
def isLevelChar (c : Char) : Bool :=
  c = 'V' || c = 'D' || c = 'I' || c = 'W' || c = 'E' || c = 'A' || c = 'F'

/-- Level class `[DIWEFV]` of the bracketed fallback pattern
(same set, written in source order). -/
def isLevelChar3 (c : Char) : Bool :=
  c = 'D' || c = 'I' || c = 'W' || c = 'E' || c = 'F' || c = 'V'

/-- Separator class `[:\s]` of the displayId patterns. -/
def sepColonWs (c : Char) : Bool := c = ':' || isPySpace c

/-- One attempt of `key[:\s]+(\d+)` (resp. `Key\s+(\d+)`) at the head of `s`,
case-insensitive (`re.IGNORECASE`); returns the digit group.  The separator
and digit classes are disjoint, so greedy matching is deterministic here. -/
def matchKeyNumAt (key : List Char) (sep : Char → Bool) (s : List Char) :
    Option (List Char) :=
  (dropPrefixCI key s).bind fun r1 =>
    match r1 with
    | [] => none
    | c :: _ =>
      if sep c then
        let ds := (r1.dropWhile sep).takeWhile Char.isDigit
        if ds = [] then none else some ds
      else none

/-- `re.search` for `key<sep>+(\d+)`: try each start position left to right
(leftmost match, as the `re` engine does). -/
def searchKeyNum (key : List Char) (sep : Char → Bool) : List Char → Option (List Char)
  | [] => none
  | c :: rest =>
    match matchKeyNumAt key sep (c :: rest) with
    | some ds => some ds
    | none => searchKeyNum key sep rest

/-- `LogParser._classify_display`: scan the message for a numeric display id
via the three patterns, in order; map 0/1/2 to Main/Cluster/IVI; fall back
to tag substring heuristics; default Main. -/
def classifyDisplay (tag message : List Char) : String :=
  let hit :=
    match searchKeyNum "displayId".data sepColonWs message with
    | some ds => some ds
    | none =>
      match searchKeyNum "display".data sepColonWs message with
      | some ds => some ds
      | none => searchKeyNum "Display".data isPySpace message
  match hit with
  | some ds =>
    if ds = ['0'] then "Main"
    else if ds = ['1'] then "Cluster"
    else if ds = ['2'] then "IVI"
    else "Display " ++ String.mk ds
  | none =>
    let tagL := lowerChars tag
    if containsSub "cluster".data tagL then "Cluster"
    else if containsSub "ivi".data tagL then "IVI"
    else if containsSub "infotainment".data tagL then "IVI"
    else if containsSub "passenger".data tagL then "Passenger"
    else "Main"

/-- `re.match` of the mandatory timestamp
`(\d\x7b2\x7d-\d\x7b2\x7d\s+\d\x7b2\x7d:\d\x7b2\x7d:\d\x7b2\x7d\.\d\x7b3\x7d)`
at line start; returns the rest after the matched prefix
(the matched prefix itself is recovered by length). -/
def matchTimestamp (line : List Char) : Option (List Char) :=
  (chCount Char.isDigit 2 line).bind fun r1 =>
  (chLit '-' r1).bind fun r2 =>
  (chCount Char.isDigit 2 r2).bind fun r3 =>
  (greedySplits1 isPySpace r3).findSome? fun w1 =>
  (chCount Char.isDigit 2 w1.2).bind fun r4 =>
  (chLit ':' r4).bind fun r5 =>
  (chCount Char.isDigit 2 r5).bind fun r6 =>
  (chLit ':' r6).bind fun r7 =>
  (chCount Char.isDigit 2 r7).bind fun r8 =>
  (chLit '.' r8).bind fun r9 =>
  chCount Char.isDigit 3 r9

/-- Fallback format 1 `^(\d+)\s+-\s+-\s+([^:]+):\s+(.*)$`
(PID-only threadtime).  Returns (pid, tag, message) groups. -/
def fmtPidOnly (rem : List Char) : Option (List Char × List Char × List Char) :=
  (greedySplits1 Char.isDigit rem).findSome? fun pid =>
  (greedySplits1 isPySpace pid.2).findSome? fun w1 =>
  (chLit '-' w1.2).bind fun r1 =>
  (greedySplits1 isPySpace r1).findSome? fun w2 =>
  (chLit '-' w2.2).bind fun r2 =>
  (greedySplits1 isPySpace r2).findSome? fun w3 =>
  (greedySplits1 (fun c => c != ':') w3.2).findSome? fun tg =>
  (chLit ':' tg.2).bind fun r3 =>
  (greedySplits1 isPySpace r3).findSome? fun w4 =>
  some (pid.1, tg.1, w4.2)

/-- Fallback format 2
`^([VDIWEAF])\s+-\s+-\s+(\d+)\s+(\d+)\s+([VDIWEAF])\s+([^:]+):\s*(.*)$`
(full threadtime; the second level char, group 4, is authoritative).
Returns (pid, tid, level, tag, message). -/
def fmtThreadtime (rem : List Char) :
    Option (List Char × List Char × Char × List Char × List Char) :=
  (chClass isLevelChar rem).bind fun r1 =>
  (greedySplits1 isPySpace r1).findSome? fun w1 =>
  (chLit '-' w1.2).bind fun r2 =>
  (greedySplits1 isPySpace r2).findSome? fun w2 =>
  (chLit '-' w2.2).bind fun r3 =>
  (greedySplits1 isPySpace r3).findSome? fun w3 =>
  (greedySplits1 Char.isDigit w3.2).findSome? fun pid =>
  (greedySplits1 isPySpace pid.2).findSome? fun w4 =>
  (greedySplits1 Char.isDigit w4.2).findSome? fun tid =>
  (greedySplits1 isPySpace tid.2).findSome? fun w5 =>
  (chClassGet isLevelChar w5.2).bind fun lv =>
  (greedySplits1 isPySpace lv.2).findSome? fun w6 =>
  (greedySplits1 (fun c => c != ':') w6.2).findSome? fun tg =>
  (chLit ':' tg.2).bind fun r4 =>
  (greedySplits isPySpace r4).findSome? fun w7 =>
  some (pid.1, tid.1, lv.1, tg.1, w7.2)

/-- Fallback format 3 `^([DIWEFV])/([^(]+)\(\s*([^)]*?)\s*\)\s+(.*)$`
(bracketed).  Returns (level, tag, pid-tid group, message). -/
def fmtBracket (rem : List Char) :
    Option (Char × List Char × List Char × List Char) :=
  (chClassGet isLevelChar3 rem).bind fun lv =>
  (chLit '/' lv.2).bind fun r1 =>
  (greedySplits1 (fun c => c != '(') r1).findSome? fun tg =>
  (chLit '(' tg.2).bind fun r2 =>
  (greedySplits isPySpace r2).findSome? fun w1 =>
  (lazySplits (fun c => c != ')') w1.2).findSome? fun pt =>
  (greedySplits isPySpace pt.2).findSome? fun w2 =>
  (chLit ')' w2.2).bind fun r3 =>
  (greedySplits1 isPySpace r3).findSome? fun w3 =>
  some (lv.1, tg.1, pt.1, w3.2)

/-- `LogParser._parse_fallback`: mandatory leading timestamp, then the three
sub-formats tried in source order; `none` when nothing matches. -/
def parseFallback (line : List Char) : Option LogRecord :=
  match matchTimestamp line with
  | none => none
  | some rest =>
    let timestamp := String.mk (line.take (line.length - rest.length))
    let remaining := stripChars rest
    match fmtPidOnly remaining with
    | some (pid, tg, msg) =>
      let tag := stripChars tg
      let message := stripChars msg
      some ⟨timestamp, "-", String.mk pid, "-", String.mk tag, String.mk message,
        classifyDisplay tag message⟩
    | none =>
      match fmtThreadtime remaining with
      | some (pid, tid, lv, tg, msg) =>
        let tag := stripChars tg
        let message := stripChars msg
        some ⟨timestamp, String.mk [lv], String.mk pid, String.mk tid,
          String.mk tag, String.mk message, classifyDisplay tag message⟩
      | none =>
        match fmtBracket remaining with
        | some (lv, tg, pt, msg) =>
          let tag := stripChars tg
          let message := stripChars msg
          let parts := splitWs (stripChars pt)
          let pid := (parts.get? 0).getD "-".data
          let tid := (parts.get? 1).getD "-".data
          some ⟨timestamp, String.mk [lv], String.mk pid, String.mk tid,
            String.mk tag, String.mk message, classifyDisplay tag message⟩
        | none => none

/-- `LogParser.parse` in the base configuration: the optional native backend
and the optional third-party library are absent (their imports fail and the
availability flags stay false), so `parse` strips the line, rejects empty
input, and delegates to `_parse_fallback`. -/
def parse (line : String) : Option LogRecord :=
  let stripped := stripChars line.data
  if stripped = [] then none
  else parseFallback stripped

end LogParser

/-! ## ErrorDetector (src/core/detector.py) -/

/-- `ErrorSeverity` enum. -/
inductive ErrorSeverity where
  | low | medium | high | critical
deriving DecidableEq

/-- `ErrorPattern`: the compiled regex is modelled by its search predicate
`test` (`pattern.match(text)` truthiness) since patterns are arbitrary
regexes compiled from constructor arguments. -/
structure DetectPattern where
  name : String
  test : String → Bool
  severity : ErrorSeverity
  description : String

/-- The dict returned by `ErrorDetector.detect` (the fields the claims are
about; the `match` object is represented by the fact that `pattern`
matched message or tag). -/
structure DetectionInfo where
  pattern : DetectPattern
  severity : ErrorSeverity
  description : String

namespace ErrorDetector

/-- Per-pattern check of `detect`: `pattern.match(message) or
pattern.match(tag)`. -/
def patternHits (p : DetectPattern) (message tag : String) : Bool :=
  p.test message || p.test tag

/-- Level gate of `detect`: `log_data.get('level','').upper() in
['E','F','A']`. -/
def levelGate (level : String) : Bool :=
  ["E", "F", "A"].contains (upperStr level)

/-- `ErrorDetector.detect`: only for levels E/F/A, try the patterns in
registration order against message then tag; first hit wins.  The
synchronous callback is a side effect with no influence on the returned
value and is not modelled. -/
def detect (patterns : List DetectPattern) (r : LogRecord) : Option DetectionInfo :=
  if levelGate r.level then
    match patterns.find? (fun p => patternHits p r.message r.tag) with
    | some p => some ⟨p, p.severity, p.description⟩
    | none => none
  else none

end ErrorDetector

/-! ## LogBuffer (src/core/buffer.py) -/

/-- `LogBuffer` state: `buffer` is the main `deque(maxlen=max_size)`,
`errorLogs` the `deque(maxlen=100)` of E/F/A records (oldest first in both,
as iteration order of a deque). -/
structure LogBuffer where
  maxSize : Nat
  buffer : List LogRecord
  errorLogs : List LogRecord
deriving DecidableEq

namespace LogBuffer

/-- Fresh buffer (`__init__`). -/
def init (maxSize : Nat) : LogBuffer := ⟨maxSize, [], []⟩

/-- `deque.append` with a `maxlen`: append at the back, evict from the
front while over capacity. -/
def dequeAppend (cap : Nat) (l : List LogRecord) (x : LogRecord) : List LogRecord :=
  let grown := l ++ [x]
  if cap < grown.length then grown.drop (grown.length - cap) else grown

/-- `LogBuffer.add`: always append to the main buffer; also append to the
error buffer (capacity 100) when the level is E, F or A.  (The guard
skipping a falsy `log_data` only concerns empty dicts, which the record
structure cannot represent.) -/
def add (b : LogBuffer) (r : LogRecord) : LogBuffer :=
  { b with
    buffer := dequeAppend b.maxSize b.buffer r
    errorLogs :=
      if ["E", "F", "A"].contains (upperStr r.level) then
        dequeAppend 100 b.errorLogs r
      else b.errorLogs }

/-- `get_recent(count)`: the last `count` records of the main buffer. -/
def getRecent (b : LogBuffer) (count : Nat) : List LogRecord :=
  b.buffer.drop (b.buffer.length - count)

/-- The location condition of `get_context_around_error`: a main-buffer
record is the error record (`log == error_log`, dict value equality) or
carries the same (nonempty) timestamp. -/
def locHit (e : LogRecord) (log : LogRecord) : Prop :=
  log = e ∨ (e.timestamp ≠ "" ∧ log.timestamp = e.timestamp)

instance (e log : LogRecord) : Decidable (locHit e log) := by
  unfold locHit; infer_instance

/-- The scan loop of `get_context_around_error`, with the `found_error`
flag and the accumulated `context` made explicit.  Branch order follows
the source: equality with the error record first (no length check there),
then the found-state append with the `context_lines*2 + 1` break, then the
timestamp lookup. -/
def ctxLoop (e : LogRecord) (cl : Nat) :
    List LogRecord → Bool → List LogRecord → List LogRecord
  | [], _, ctx => ctx
  | log :: rest, found, ctx =>
    if log = e then
      ctxLoop e cl rest true (ctx ++ [log])
    else
      match found with
      | true =>
        let ctx' := ctx ++ [log]
        if cl * 2 + 1 ≤ ctx'.length then ctx'
        else ctxLoop e cl rest true ctx'
      | false =>
        if e.timestamp ≠ "" ∧ log.timestamp = e.timestamp then
          ctxLoop e cl rest true (ctx ++ [log])
        else
          ctxLoop e cl rest false ctx

/-- `get_context_around_error(error_index, context_lines)`.  A negative
index is excluded by the `Nat` type; the out-of-range check mirrors
`error_index >= len(self.error_logs)`. -/
def getContextAroundError (b : LogBuffer) (errorIndex cl : Nat) : List LogRecord :=
  if h : errorIndex < b.errorLogs.length then
    ctxLoop (b.errorLogs.get ⟨errorIndex, h⟩) cl b.buffer false []
  else []

/-- The tail phase of the context scan, after the record has been located,
with the accumulated length `n` explicit: a later copy of the error record
is appended through the equality branch (which carries no break check),
any other record is appended and the scan stops once the accumulated
length reaches `context_lines*2 + 1`. -/
def ctxExt (e : LogRecord) (cl : Nat) : List LogRecord → Nat → List LogRecord
  | [], _ => []
  | log :: rest, n =>
    if log = e then log :: ctxExt e cl rest (n + 1)
    else if cl * 2 + 1 ≤ n + 1 then [log]
    else log :: ctxExt e cl rest (n + 1)

end LogBuffer

/-! ## LogTableModel (src/ui/log_table/log_model.py) -/

/-- One row of the table model: the tuple
`(timestamp, level, display, tag, message)`. -/
structure LogEntry where
  timestamp : String
  level : String
  display : String
  tag : String
  message : String
deriving DecidableEq

/-- The `fields` sub-dict of a filter rule.  A missing key and an empty
string are both falsy in the source, so `some ""` and `none` impose no
constraint (see `truthy`). -/
structure FilterFields where
  level : Option String
  pid : Option String
  tid : Option String
  tag : Option String
  tag_case_sensitive : Bool
  keyword : Option String
  keyword_regex : Bool
  keyword_case_sensitive : Bool
deriving DecidableEq

/-- A filter rule dict: `type` (default Show), `enabled` (default True),
optional color, and the field constraints. -/
structure FilterRule where
  ftype : String
  enabled : Bool
  color : Option String
  fields : FilterFields
deriving DecidableEq

/-- Python truthiness of an optional string field: missing or empty means
no constraint. -/
def truthy : Option String → Option String
  | some s => if s = "" then none else some s
  | none => none

/-- An abstract `re.compile` for user keyword patterns:
`(pattern, case-sensitive flag) ↦ search predicate`, `none` when the
pattern does not compile.  The per-model cache keyed by (pattern, flags)
is semantically transparent because compilation is deterministic. -/
def RegexCompiler : Type := String → Bool → Option (String → Bool)

namespace LogTableModel

/-- `re.search` of the precompiled `pid[=:](\d+)` / `tid[=:](\d+)`
(IGNORECASE) at one position: the key, one separator char, then the
maximal digit run (group 1). -/
def matchIdAt (key : List Char) (s : List Char) : Option (List Char) :=
  (dropPrefixCI key s).bind fun r1 =>
    match r1 with
    | [] => none
    | c :: r2 =>
      if c = '=' || c = ':' then
        let ds := r2.takeWhile Char.isDigit
        if ds = [] then none else some ds
      else none

/-- Leftmost search for `key[=:](\d+)` over the message. -/
def searchId (key : List Char) : List Char → Option (List Char)
  | [] => none
  | c :: rest =>
    match matchIdAt key (c :: rest) with
    | some ds => some ds
    | none => searchId key rest

/-- The PID value a filter compares against: extracted from the message
text via `pid[=:](\d+)`, `'-'` when absent.  (The row tuple has no pid
attribute at all; the message is the only source.) -/
def pidValue (message : String) : String :=
  match searchId "pid".data message.data with
  | some ds => String.mk ds
  | none => "-"

/-- The TID value a filter compares against, extracted via `tid[=:](\d+)`. -/
def tidValue (message : String) : String :=
  match searchId "tid".data message.data with
  | some ds => String.mk ds
  | none => "-"

/-- Level check of `_match_filter`. -/
def levelOk (f : FilterRule) (log : LogEntry) : Bool :=
  match truthy f.fields.level with
  | none => true
  | some lv => upperStr log.level == upperStr lv

/-- PID check of `_match_filter` (exact equality against the
message-extracted value). -/
def pidOk (f : FilterRule) (log : LogEntry) : Bool :=
  match truthy f.fields.pid with
  | none => true
  | some p => pidValue log.message == p

/-- TID check of `_match_filter`. -/
def tidOk (f : FilterRule) (log : LogEntry) : Bool :=
  match truthy f.fields.tid with
  | none => true
  | some t => tidValue log.message == t

/-- Tag check of `_match_filter`: substring containment, case-insensitive
unless `tag_case_sensitive`. -/
def tagOk (f : FilterRule) (log : LogEntry) : Bool :=
  match truthy f.fields.tag with
  | none => true
  | some tv =>
    if f.fields.tag_case_sensitive then containsSub tv.data log.tag.data
    else containsSub (lowerChars tv.data) (lowerChars log.tag.data)

/-- Keyword check of `_match_filter`: regex search via the abstract
compiler (a failed compile makes the check false), else substring
containment with optional case folding. -/
def keywordOk (compile : RegexCompiler) (f : FilterRule) (log : LogEntry) : Bool :=
  match truthy f.fields.keyword with
  | none => true
  | some kw =>
    if f.fields.keyword_regex then
      match compile kw f.fields.keyword_case_sensitive with
      | some rx => rx log.message
      | none => false
    else
      if f.fields.keyword_case_sensitive then containsSub kw.data log.message.data
      else containsSub (lowerChars kw.data) (lowerChars log.message.data)

/-- `LogTableModel._match_filter`: all configured field constraints must
hold (the early-return chain of the source is the conjunction of the
per-field checks). -/
def matchFilter (compile : RegexCompiler) (f : FilterRule) (log : LogEntry) : Bool :=
  levelOk f log && pidOk f log && tidOk f log && tagOk f log && keywordOk compile f log

/-- Enabled Show rules, in list order (`f.get('enabled', True) and
f.get('type', 'Show') == 'Show'`). -/
def showFilters (filters : List FilterRule) : List FilterRule :=
  filters.filter fun f => f.enabled && f.ftype == "Show"

/-- Enabled Ignore rules, in list order. -/
def ignoreFilters (filters : List FilterRule) : List FilterRule :=
  filters.filter fun f => f.enabled && f.ftype == "Ignore"

/-- `LogTableModel._evaluate_log`.  Result encoding of the source values:
`none` = `False` (excluded), `some none` = `None` (included, no styling
rule), `some (some f)` = the first matching Show rule. -/
def evaluateLog (compile : RegexCompiler) (filters : List FilterRule)
    (log : LogEntry) : Option (Option FilterRule) :=
  if filters = [] then some none
  else if (ignoreFilters filters).any (fun f => matchFilter compile f log) then none
  else if showFilters filters ≠ [] then
    match (showFilters filters).find? (fun f => matchFilter compile f log) with
    | some f => some (some f)
    | none => none
  else some none

/-- The mutable store: `_all_logs`, `_filtered_indices`, `_matched_filters`
and `_filters` (fonts, colors and the Qt machinery carry no engine state). -/
structure ModelState where
  allLogs : List LogEntry
  filteredIndices : List Nat
  matchedFilters : List (Option FilterRule)
  filters : List FilterRule
deriving DecidableEq

/-- Fresh model (`__init__`). -/
def initState : ModelState := ⟨[], [], [], []⟩

/-- The filtering loop shared by `add_logs` (with `start` = old length)
and `_reapply_filters` (with `start = 0`): indices and matched rules of
the records that pass, in arrival order. -/
def filterPass (compile : RegexCompiler) (fs : List FilterRule) :
    List LogEntry → Nat → List Nat × List (Option FilterRule)
  | [], _ => ([], [])
  | log :: rest, start =>
    let tail := filterPass compile fs rest (start + 1)
    match evaluateLog compile fs log with
    | none => tail
    | some mf => (start :: tail.1, mf :: tail.2)

/-- `LogTableModel.add_logs`: extend `_all_logs`, evaluate only the new
records, and append the surviving indices / matched rules (the
`beginInsertRows` notifications carry no state). -/
def addLogs (compile : RegexCompiler) (s : ModelState) (logs : List LogEntry) :
    ModelState :=
  if logs = [] then s
  else
    let nf := filterPass compile s.filters logs s.allLogs.length
    { s with
      allLogs := s.allLogs ++ logs
      filteredIndices :=
        if nf.1 = [] then s.filteredIndices else s.filteredIndices ++ nf.1
      matchedFilters :=
        if nf.1 = [] then s.matchedFilters else s.matchedFilters ++ nf.2 }

/-- `LogTableModel._reapply_filters`: rebuild both derived sequences from
the whole store. -/
def reapplyFilters (compile : RegexCompiler) (s : ModelState) : ModelState :=
  let nf := filterPass compile s.filters s.allLogs 0
  { s with filteredIndices := nf.1, matchedFilters := nf.2 }

/-- `LogTableModel.set_filters`: install the new rules and rebuild. -/
def setFilters (compile : RegexCompiler) (s : ModelState)
    (fs : List FilterRule) : ModelState :=
  reapplyFilters compile { s with filters := fs }

/-- `LogTableModel.clear` (the regex cache it also clears is semantically
transparent). -/
def clear (s : ModelState) : ModelState :=
  { s with allLogs := [], filteredIndices := [], matchedFilters := [] }

/-- `LogTableModel.get_log_at(row)`: `row` is a Python int, so negative
values are representable; an in-range row reads
`_all_logs[_filtered_indices[row]]`, where a stale index out of range of
`_all_logs` would raise (modelled by `Except.error`). -/
def getLogAt (s : ModelState) (row : Int) : Except Unit (Option LogEntry) :=
  if 0 ≤ row ∧ row < (s.filteredIndices.length : Int) then
    match s.filteredIndices.get? row.toNat with
    | some idx =>
      match s.allLogs.get? idx with
      | some rec => .ok (some rec)
      | none => .error ()
    | none => .error ()
  else .ok none

/-- The operation kinds the store-invariant claim quantifies over. -/
inductive ModelOp where
  | addOp (logs : List LogEntry)
  | setOp (fs : List FilterRule)
  | clearOp

/-- Apply one operation to the store. -/
def step (compile : RegexCompiler) (s : ModelState) : ModelOp → ModelState
  | .addOp logs => addLogs compile s logs
  | .setOp fs => setFilters compile s fs
  | .clearOp => clear s

end LogTableModel


/-! ## Concrete sample data used by witnesses and counterexamples -/

/-- The example record of the spec (fields as `parse` would have to
produce them). -/
def recE : LogRecord :=
  ⟨"01-15 10:23:45.123", "E", "1234", "5678", "ActivityManager",
    "FATAL EXCEPTION", "Main"⟩

/-- An unremarkable info record. -/
def recI : LogRecord :=
  ⟨"01-15 10:23:46.000", "I", "3", "4", "Chatty", "uid=1000 expire", "Main"⟩

/-- A warning record. -/
def recW : LogRecord :=
  ⟨"01-15 10:23:47.500", "W", "5", "6", "Tag3", "warn text", "Main"⟩

/-- Row tuple of the spec example. -/
def entE : LogEntry :=
  ⟨"01-15 10:23:45.123", "E", "Main", "ActivityManager", "FATAL EXCEPTION"⟩

/-- Row tuple with no pid= / pid: token in the message. -/
def entI : LogEntry :=
  ⟨"01-15 10:23:46.000", "I", "Main", "Chatty", "uid=1000 expire"⟩

/-- A regex compiler refusing every pattern (every compile fails). -/
def compileNone : RegexCompiler := fun _ _ => none

/-- Show rule on tag ActivityManager (the spec example). -/
def ruleShowAM : FilterRule :=
  ⟨"Show", true, none,
    ⟨none, none, none, some "ActivityManager", false, none, false, false⟩⟩

/-- Ignore rule on keyword FATAL (the spec example). -/
def ruleIgnoreFatal : FilterRule :=
  ⟨"Ignore", true, none,
    ⟨none, none, none, none, false, some "FATAL", false, false⟩⟩

/-- Show rule on a tag the sample rows do not carry (a non-matching rule
placed ahead of a matching one in the styling witness). -/
def ruleShowOther : FilterRule :=
  ⟨"Show", true, none,
    ⟨none, none, none, some "PowerManager", false, none, false, false⟩⟩

/-- Rule whose pid field is 99. -/
def rulePid99 : FilterRule :=
  ⟨"Show", true, none,
    ⟨none, some "99", none, none, false, none, false, false⟩⟩

/-- Rule with a keyword in regex mode whose pattern will not compile. -/
def ruleBadRegex : FilterRule :=
  ⟨"Show", true, none,
    ⟨none, none, none, none, false, some "(", true, false⟩⟩

/-- Detection pattern matching FATAL EXCEPTION (stand-in predicate). -/
def patCrash : DetectPattern :=
  ⟨"Crash", fun s => containsSub "FATAL EXCEPTION".data s.data, .critical, "app crash"⟩

/-- A second pattern that also matches the sample message. -/
def patExc : DetectPattern :=
  ⟨"AnyException", fun s => containsSub "EXCEPTION".data s.data, .high, "exception"⟩

/-- The canonical state reached by filtering `l` under rules `fs`. -/
def canonState (compile : RegexCompiler) (fs : List FilterRule)
    (l : List LogEntry) : LogTableModel.ModelState :=
  ⟨l, (LogTableModel.filterPass compile fs l 0).1,
    (LogTableModel.filterPass compile fs l 0).2, fs⟩

/-- The store invariant: strictly increasing valid indices and a parallel
matched-rule list. -/
def StoreInv (s : LogTableModel.ModelState) : Prop :=
  s.filteredIndices.Pairwise (· < ·) ∧
  (∀ i ∈ s.filteredIndices, i < s.allLogs.length) ∧
  s.matchedFilters.length = s.filteredIndices.length

/-- Concrete operation sequence exercised by the invariant witness. -/
def opsSample : List LogTableModel.ModelOp :=
  [.addOp [entE, entI], .setOp [ruleShowAM], .addOp [entI]]

/-! ## Embedding sanity checks on concrete lines (positive controls) -/

/-- The PID-only fallback format on a concrete line. -/
theorem sanity_parse_pidonly :
    LogParser.parse "01-15 10:23:45.123  1234  -  -  MyTag: hello world" =
      some ⟨"01-15 10:23:45.123", "-", "1234", "-", "MyTag", "hello world",
        "Main"⟩ := by
  decide

/-- The full threadtime fallback format, second level authoritative,
display classified from the message. -/
theorem sanity_parse_threadtime :
    LogParser.parse "01-15 10:23:45.123 V - - 100 200 E ClusterSvc: displayId: 1 ok" =
      some ⟨"01-15 10:23:45.123", "E", "100", "200", "ClusterSvc",
        "displayId: 1 ok", "Cluster"⟩ := by
  decide

/-- The bracketed fallback format with pid/tid split from the
parenthesized group. -/
theorem sanity_parse_bracket :
    LogParser.parse "01-15 10:23:45.123 E/CarSvc( 12 34 ) boom" =
      some ⟨"01-15 10:23:45.123", "E", "12", "34", "CarSvc", "boom", "Main"⟩ := by
  decide

/-- Lines without the mandatory leading timestamp are rejected. -/
theorem sanity_parse_no_timestamp :
    LogParser.parse "hello world" = none := by decide

/-! ## C1 — the space-delimited fallback branch -/

/-- C1 counterexample: the claim asserts that the spec example line parses
to a full record; in the code, `_parse_fallback` has no space-delimited
sub-format at all, so `parse` rejects the line: timestamp matches, but the
remainder `1234 5678 E ActivityManager: FATAL EXCEPTION` fits none of the
three implemented sub-formats. -/
theorem C1_counterexample :
    LogParser.parse "01-15 10:23:45.123 1234 5678 E ActivityManager: FATAL EXCEPTION"
        = none ∧
    LogParser.parse "01-15 10:23:45.123 1234 5678 E ActivityManager: FATAL EXCEPTION"
        ≠ some ⟨"01-15 10:23:45.123", "E", "1234", "5678", "ActivityManager",
          "FATAL EXCEPTION", "Main"⟩ := by
  decide

/-- C1 (amended): the fallback chain accepts only the PID-only, full
threadtime, and bracketed sub-formats; a line whose post-timestamp shape is
space-delimited — whether `PID TID Level Tag: Message` (the spec example)
or literally `Level PID TID Tag: Message` as the claim words it — is not
parsed: `parse` returns none on both. -/
theorem C1_amended :
    LogParser.parse "01-15 10:23:45.123 1234 5678 E ActivityManager: FATAL EXCEPTION"
        = none ∧
    LogParser.parse "01-15 10:23:45.123 E 1234 5678 ActivityManager: FATAL EXCEPTION"
        = none := by
  decide

/-! ## C6 — FIFO eviction of the bounded buffer -/

/-- The main deque after folding `add` over a record list: the old content
followed by the new records, truncated at the front to the capacity. -/
theorem foldl_add_buffer (N : Nat) :
    ∀ (rs : List LogRecord) (b : LogBuffer), b.maxSize = N →
      b.buffer.length ≤ N →
      (rs.foldl LogBuffer.add b).buffer =
        (b.buffer ++ rs).drop (b.buffer.length + rs.length - N)
  | [], b, hN, hlen => by
    simp [Nat.sub_eq_zero_of_le, hlen]
  | r :: rs, b, hN, hlen => by
    rw [List.foldl_cons]
    have hsize : (LogBuffer.add b r).maxSize = N := by
      simp [LogBuffer.add, hN]
    by_cases hfull : N < b.buffer.length + 1
    · have hEq : b.buffer.length = N := by omega
      have h1 : b.buffer.length + 1 - N = 1 := by omega
      have hbuf : (LogBuffer.add b r).buffer = (b.buffer ++ [r]).drop 1 := by
        simp only [LogBuffer.add, LogBuffer.dequeAppend, hN, List.length_append,
          List.length_singleton]
        rw [if_pos hfull, h1]
      have hblen : (LogBuffer.add b r).buffer.length ≤ N := by
        rw [hbuf, List.length_drop]
        simp only [List.length_append, List.length_singleton]
        omega
      rw [foldl_add_buffer N rs (LogBuffer.add b r) hsize hblen, hbuf]
      have hle : (1 : Nat) ≤ (b.buffer ++ [r]).length := by
        simp only [List.length_append, List.length_singleton]; omega
      have hsplit : ((b.buffer ++ [r]) ++ rs).drop 1 =
          (b.buffer ++ [r]).drop 1 ++ rs := by
        rw [List.drop_append_eq_append_drop, Nat.sub_eq_zero_of_le hle,
          List.drop_zero]
      rw [← hsplit, List.drop_drop, List.append_assoc, List.singleton_append]
      congr 1
      simp only [List.length_drop, List.length_append, List.length_singleton,
        List.length_nil, List.length_cons]
      omega
    · have hbuf : (LogBuffer.add b r).buffer = b.buffer ++ [r] := by
        simp only [LogBuffer.add, LogBuffer.dequeAppend, hN, List.length_append,
          List.length_singleton]
        rw [if_neg hfull]
      have hblen : (LogBuffer.add b r).buffer.length ≤ N := by
        rw [hbuf]; simp only [List.length_append, List.length_singleton]; omega
      rw [foldl_add_buffer N rs (LogBuffer.add b r) hsize hblen, hbuf,
        List.append_assoc, List.singleton_append]
      congr 1
      simp only [List.length_append, List.length_singleton, List.length_nil,
        List.length_cons]
      omega

/-- C6: adding `N + k` records to a fresh capacity-`N` buffer leaves the
main buffer holding exactly the most recent `N` records in arrival order
(FIFO eviction of the oldest `k`). -/
theorem C6_buffer_eviction (N k : Nat) (rs : List LogRecord)
    (h : rs.length = N + k) :
    (rs.foldl LogBuffer.add (LogBuffer.init N)).buffer = rs.drop k ∧
    (rs.foldl LogBuffer.add (LogBuffer.init N)).buffer.length = N := by
  have hmain := foldl_add_buffer N rs (LogBuffer.init N) rfl
    (by simp [LogBuffer.init])
  have hz : (LogBuffer.init N).buffer = [] := rfl
  rw [hz, List.nil_append, List.length_nil, Nat.zero_add] at hmain
  have hk : rs.length - N = k := by omega
  rw [hk] at hmain
  exact ⟨hmain, by rw [hmain, List.length_drop]; omega⟩

/-- C6 witness: a capacity-2 buffer fed 3 records keeps the last two. -/
theorem C6_witness :
    ([recE, recI, recW] : List LogRecord).length = 2 + 1 ∧
    (([recE, recI, recW] : List LogRecord).foldl LogBuffer.add
        (LogBuffer.init 2)).buffer = ([recE, recI, recW] : List LogRecord).drop 1 ∧
    (([recE, recI, recW] : List LogRecord).foldl LogBuffer.add
        (LogBuffer.init 2)).buffer.length = 2 :=
  ⟨by decide, C6_buffer_eviction 2 1 [recE, recI, recW] (by decide)⟩

/-! ## C8 — pid/tid filters compare against message-extracted values -/

/-- C8: a configured pid (tid) filter field is compared, by exact string
equality, against the value extracted from the message text via
`pid[=:](\d+)` (`tid[=:](\d+)`), with default `-` when the token is absent;
the row tuple carries no pid/tid attribute, so the message is the only
source.  In particular a pid filter of 99 never matches a record whose
message has no pid token. -/
theorem C8_pid_tid_from_message (compile : RegexCompiler) (f : FilterRule)
    (log : LogEntry) :
    (∀ p, truthy f.fields.pid = some p →
      LogTableModel.pidValue log.message ≠ p →
      LogTableModel.matchFilter compile f log = false) ∧
    (∀ t, truthy f.fields.tid = some t →
      LogTableModel.tidValue log.message ≠ t →
      LogTableModel.matchFilter compile f log = false) ∧
    (LogTableModel.matchFilter compile f log = true →
      (∀ p, truthy f.fields.pid = some p →
        LogTableModel.pidValue log.message = p) ∧
      (∀ t, truthy f.fields.tid = some t →
        LogTableModel.tidValue log.message = t)) ∧
    (truthy f.fields.pid = some "99" →
      LogTableModel.searchId "pid".data log.message.data = none →
      LogTableModel.matchFilter compile f log = false) := by
  have hpid : ∀ p, truthy f.fields.pid = some p →
      LogTableModel.pidValue log.message ≠ p →
      LogTableModel.matchFilter compile f log = false := by
    intro p hp hne
    have : LogTableModel.pidOk f log = false := by
      unfold LogTableModel.pidOk
      rw [hp]
      simp [hne]
    simp [LogTableModel.matchFilter, this]
  have htid : ∀ t, truthy f.fields.tid = some t →
      LogTableModel.tidValue log.message ≠ t →
      LogTableModel.matchFilter compile f log = false := by
    intro t ht hne
    have : LogTableModel.tidOk f log = false := by
      unfold LogTableModel.tidOk
      rw [ht]
      simp [hne]
    simp [LogTableModel.matchFilter, this]
  refine ⟨hpid, htid, ?_, ?_⟩
  · intro hmatch
    simp only [LogTableModel.matchFilter, Bool.and_eq_true] at hmatch
    constructor
    · intro p hp
      have := hmatch.1.1.1.2
      unfold LogTableModel.pidOk at this
      rw [hp] at this
      exact eq_of_beq this
    · intro t ht
      have := hmatch.1.1.2
      unfold LogTableModel.tidOk at this
      rw [ht] at this
      exact eq_of_beq this
  · intro hp hs
    apply hpid "99" hp
    unfold LogTableModel.pidValue
    rw [hs]
    decide

/-- C8 witness: pid filter 99 against a record whose message carries no
pid token. -/
theorem C8_witness :
    truthy rulePid99.fields.pid = some "99" ∧
    LogTableModel.searchId "pid".data entI.message.data = none ∧
    LogTableModel.matchFilter compileNone rulePid99 entI = false :=
  ⟨by decide, by decide,
    (C8_pid_tid_from_message compileNone rulePid99 entI).2.2.2 (by decide) (by decide)⟩

/-! ## C9 — invalid keyword regex never matches, no error -/

/-- C9: a rule whose keyword is in regex mode and fails to compile matches
no record: `_get_compiled_regex` swallows the compile error and returns
nothing, and `_match_filter` then returns False (total evaluation — no
exception reaches the caller). -/
theorem C9_invalid_regex (compile : RegexCompiler) (f : FilterRule)
    (log : LogEntry) (kw : String)
    (hkw : truthy f.fields.keyword = some kw)
    (hre : f.fields.keyword_regex = true)
    (hcomp : compile kw f.fields.keyword_case_sensitive = none) :
    LogTableModel.matchFilter compile f log = false := by
  have : LogTableModel.keywordOk compile f log = false := by
    unfold LogTableModel.keywordOk
    rw [hkw, hre]
    simp [hcomp]
  simp [LogTableModel.matchFilter, this]

/-- C9 witness: an uncompilable keyword pattern under a compiler that
rejects it. -/
theorem C9_witness :
    truthy ruleBadRegex.fields.keyword = some "(" ∧
    ruleBadRegex.fields.keyword_regex = true ∧
    compileNone "(" ruleBadRegex.fields.keyword_case_sensitive = none ∧
    LogTableModel.matchFilter compileNone ruleBadRegex entE = false :=
  ⟨by decide, rfl, rfl,
    C9_invalid_regex compileNone ruleBadRegex entE "(" (by decide) rfl rfl⟩

/-! ## C10 — bounds-safe random access -/

/-- C10: `get_log_at` returns None for every row outside
`[0, filtered_count)` — negative rows included — and returns
`_all_logs[_filtered_indices[row]]` for rows inside the range. -/
theorem C10_get_log_at (s : LogTableModel.ModelState) (row : Int) :
    ((row < 0 ∨ (s.filteredIndices.length : Int) ≤ row) →
      LogTableModel.getLogAt s row = .ok none) ∧
    (∀ (_ : 0 ≤ row) (_ : row < (s.filteredIndices.length : Int)) (idx : Nat),
      s.filteredIndices.get? row.toNat = some idx →
      ∀ (rec : LogEntry), s.allLogs.get? idx = some rec →
      LogTableModel.getLogAt s row = .ok (some rec)) := by
  constructor
  · intro hout
    unfold LogTableModel.getLogAt
    rw [if_neg]
    intro ⟨h1, h2⟩
    rcases hout with h | h <;> omega
  · intro hlo hhi idx hidx rec hrec
    unfold LogTableModel.getLogAt
    rw [if_pos ⟨hlo, hhi⟩]
    simp only [hidx, hrec]

/-- C10 witness: concrete store, one out-of-range and one in-range row. -/
theorem C10_witness :
    LogTableModel.getLogAt ⟨[entE, entI], [1], [none], []⟩ 5 = .ok none ∧
    LogTableModel.getLogAt ⟨[entE, entI], [1], [none], []⟩ 0 = .ok (some entI) :=
  ⟨(C10_get_log_at ⟨[entE, entI], [1], [none], []⟩ 5).1 (by decide),
    (C10_get_log_at ⟨[entE, entI], [1], [none], []⟩ 0).2 (by decide) (by decide)
      1 (by decide) entI (by decide)⟩

/-! ## First-match characterization of List.find? (shared helper) -/

/-- `find?` returns the first element satisfying the predicate: the list
splits at the result, with everything before it failing the predicate. -/
theorem find?_first_split {α : Type} (p : α → Bool) :
    ∀ (l : List α) (a : α), l.find? p = some a →
      ∃ l1 l2, l = l1 ++ a :: l2 ∧ p a = true ∧ ∀ b ∈ l1, p b = false
  | [], a, h => by simp [List.find?] at h
  | x :: l, a, h => by
    by_cases hx : p x
    · rw [List.find?_cons_of_pos _ hx] at h
      cases h
      exact ⟨[], l, rfl, hx, by simp⟩
    · rw [List.find?_cons_of_neg _ (by simpa using hx)] at h
      obtain ⟨l1, l2, rfl, hpa, hl1⟩ := find?_first_split p l a h
      refine ⟨x :: l1, l2, rfl, hpa, ?_⟩
      intro b hb
      rcases List.mem_cons.mp hb with rfl | hb
      · simpa using hx
      · exact hl1 b hb

/-- Conversely, `find?` on a list that splits at the first satisfying
element returns exactly that element. -/
theorem find?_append_first {α : Type} (p : α → Bool) :
    ∀ (l1 : List α) (a : α) (l2 : List α), p a = true →
      (∀ b ∈ l1, p b = false) → (l1 ++ a :: l2).find? p = some a
  | [], a, l2, ha, _ => by
    rw [List.nil_append]
    exact List.find?_cons_of_pos _ ha
  | x :: l1, a, l2, ha, hl1 => by
    have hx : p x = false := hl1 x (List.mem_cons_self x l1)
    rw [List.cons_append, List.find?_cons_of_neg _ (by simp [hx])]
    exact find?_append_first p l1 a l2 ha
      (fun b hb => hl1 b (List.mem_cons_of_mem x hb))

/-! ## C4 — detector level gate and first-match order -/

/-- C4: `detect` yields a result only when the level (uppercased) is E, F
or A; the reported pattern is the first registered pattern that matches the
message or the tag, and no earlier pattern matches; in particular with A
registered before B and both matching, A is reported. -/
theorem C4_detect_first_match (ps : List DetectPattern) (r : LogRecord) :
    (ErrorDetector.levelGate r.level = false →
      ErrorDetector.detect ps r = none) ∧
    (∀ info, ErrorDetector.detect ps r = some info →
      ErrorDetector.levelGate r.level = true ∧
      ErrorDetector.patternHits info.pattern r.message r.tag = true ∧
      ∃ l1 l2, ps = l1 ++ info.pattern :: l2 ∧
        ∀ q ∈ l1, ErrorDetector.patternHits q r.message r.tag = false) ∧
    (ErrorDetector.levelGate r.level = true →
      ∀ (A B : DetectPattern) (rest : List DetectPattern),
        ErrorDetector.patternHits A r.message r.tag = true →
        ErrorDetector.patternHits B r.message r.tag = true →
        ∃ info, ErrorDetector.detect (A :: B :: rest) r = some info ∧
          info.pattern = A) := by
  refine ⟨?_, ?_, ?_⟩
  · intro hgate
    unfold ErrorDetector.detect
    rw [hgate]
    simp
  · intro info hdet
    unfold ErrorDetector.detect at hdet
    by_cases hgate : ErrorDetector.levelGate r.level
    · rw [if_pos hgate] at hdet
      refine ⟨hgate, ?_⟩
      cases hfind : (ps.find? fun p => ErrorDetector.patternHits p r.message r.tag) with
      | none => rw [hfind] at hdet; exact absurd hdet (by simp)
      | some q =>
        rw [hfind] at hdet
        cases hdet
        obtain ⟨l1, l2, heq, hq, hl1⟩ := find?_first_split _ ps q hfind
        exact ⟨hq, l1, l2, heq, hl1⟩
    · rw [if_neg hgate] at hdet
      exact absurd hdet (by simp)
  · intro hgate A B rest hA _
    refine ⟨⟨A, A.severity, A.description⟩, ?_, rfl⟩
    unfold ErrorDetector.detect
    rw [if_pos hgate]
    have hfind : (List.find? (fun p => ErrorDetector.patternHits p r.message r.tag)
        (A :: B :: rest)) = some A := List.find?_cons_of_pos _ hA
    rw [hfind]

/-- C4 witness: two patterns both matching the sample crash message, the
earlier one reported; plus the gate refusing an info record. -/
theorem C4_witness :
    ErrorDetector.levelGate recE.level = true ∧
    ErrorDetector.patternHits patCrash recE.message recE.tag = true ∧
    ErrorDetector.patternHits patExc recE.message recE.tag = true ∧
    (∃ info, ErrorDetector.detect [patCrash, patExc] recE = some info ∧
      info.pattern = patCrash) ∧
    ErrorDetector.detect [patCrash, patExc] recI = none :=
  ⟨rfl, by decide, by decide,
    (C4_detect_first_match [patCrash, patExc] recE).2.2 rfl patCrash patExc []
      (by decide) (by decide),
    (C4_detect_first_match [patCrash, patExc] recI).1 rfl⟩

/-! ## C3 — Show/Ignore precedence and first-match styling -/

/-- C3: a matching enabled Ignore rule excludes the record even when a Show
rule matches; otherwise, with enabled Show rules present, the record is
included exactly when some Show rule matches, and the first matching Show
rule in list order is exactly the one recorded for styling (positively:
splitting the Show list at its first matching rule forces
`some (some f)`; conversely anything recorded is that first matching
rule); with no enabled rules at all the record is included with no styling
rule. -/
theorem C3_evaluate_precedence (compile : RegexCompiler)
    (fs : List FilterRule) (log : LogEntry) :
    ((∃ f ∈ LogTableModel.ignoreFilters fs,
        LogTableModel.matchFilter compile f log = true) →
      LogTableModel.evaluateLog compile fs log = none) ∧
    ((∀ f ∈ LogTableModel.ignoreFilters fs,
        LogTableModel.matchFilter compile f log = false) →
      LogTableModel.showFilters fs ≠ [] →
      ((LogTableModel.evaluateLog compile fs log ≠ none ↔
          ∃ f ∈ LogTableModel.showFilters fs,
            LogTableModel.matchFilter compile f log = true) ∧
        (∀ l1 f l2, LogTableModel.showFilters fs = l1 ++ f :: l2 →
          LogTableModel.matchFilter compile f log = true →
          (∀ g ∈ l1, LogTableModel.matchFilter compile g log = false) →
          LogTableModel.evaluateLog compile fs log = some (some f)) ∧
        ∀ f, LogTableModel.evaluateLog compile fs log = some (some f) →
          LogTableModel.matchFilter compile f log = true ∧
          ∃ l1 l2, LogTableModel.showFilters fs = l1 ++ f :: l2 ∧
            ∀ g ∈ l1, LogTableModel.matchFilter compile g log = false)) ∧
    ((∀ f ∈ fs, f.enabled = false) →
      LogTableModel.evaluateLog compile fs log = some none) := by
  refine ⟨?_, ?_, ?_⟩
  · intro ⟨f, hf, hmatch⟩
    have hfs : fs ≠ [] := by
      intro h
      rw [h] at hf
      simp [LogTableModel.ignoreFilters] at hf
    have hany : (LogTableModel.ignoreFilters fs).any
        (fun f => LogTableModel.matchFilter compile f log) = true :=
      List.any_eq_true.mpr ⟨f, hf, hmatch⟩
    unfold LogTableModel.evaluateLog
    rw [if_neg hfs, if_pos hany]
  · intro hig hshow
    have hfs : fs ≠ [] := by
      intro h
      rw [h] at hshow
      simp [LogTableModel.showFilters] at hshow
    have hany : (LogTableModel.ignoreFilters fs).any
        (fun f => LogTableModel.matchFilter compile f log) = false := by
      rw [List.any_eq_false]
      intro f hf
      simp [hig f hf]
    have heval : LogTableModel.evaluateLog compile fs log =
        match (LogTableModel.showFilters fs).find?
            (fun f => LogTableModel.matchFilter compile f log) with
        | some f => some (some f)
        | none => none := by
      unfold LogTableModel.evaluateLog
      rw [if_neg hfs, hany]
      simp [hshow]
    refine ⟨?_, ?_, ?_⟩
    · rw [heval]
      cases hfind : (LogTableModel.showFilters fs).find?
          (fun f => LogTableModel.matchFilter compile f log) with
      | none =>
        simp only [hfind]
        constructor
        · intro h; exact absurd rfl h
        · intro ⟨f, hf, hmatch⟩
          have := List.find?_eq_none.mp hfind f hf
          simp [hmatch] at this
      | some f =>
        simp only [hfind]
        constructor
        · intro _
          have hmem := List.mem_of_find?_eq_some hfind
          have hmatch := List.find?_some hfind
          exact ⟨f, hmem, by simpa using hmatch⟩
        · intro _; simp
    · intro l1 f l2 hsplit hf hl1
      have hfind : (LogTableModel.showFilters fs).find?
          (fun g => LogTableModel.matchFilter compile g log) = some f := by
        rw [hsplit]
        exact find?_append_first _ l1 f l2 hf hl1
      rw [heval, hfind]
    · intro f heq
      rw [heval] at heq
      cases hfind : (LogTableModel.showFilters fs).find?
          (fun g => LogTableModel.matchFilter compile g log) with
      | none => rw [hfind] at heq; exact absurd heq (by simp)
      | some g =>
        rw [hfind] at heq
        have hgf : g = f := by
          have : some (some g) = some (some f) := heq
          injection this with h1
          injection h1
        subst hgf
        obtain ⟨l1, l2, hsplit, hg, hl1⟩ := find?_first_split _ _ g hfind
        exact ⟨hg, l1, l2, hsplit, hl1⟩
  · intro hdis
    by_cases hfs : fs = []
    · rw [hfs]; rfl
    · have hshow : LogTableModel.showFilters fs = [] := by
        apply List.filter_eq_nil_iff.mpr
        intro f hf
        simp [hdis f hf]
      have hign : LogTableModel.ignoreFilters fs = [] := by
        apply List.filter_eq_nil_iff.mpr
        intro f hf
        simp [hdis f hf]
      unfold LogTableModel.evaluateLog
      rw [if_neg hfs, hign]
      simp [hshow]

/-- C3 witness: the spec example — a Show rule on tag ActivityManager and
an Ignore rule on keyword FATAL applied to the crash row yields exclusion
(Ignore wins) — and, with no Ignore rule and a non-matching Show rule
listed first, the first matching Show rule is the one recorded for
styling. -/
theorem C3_witness :
    (∃ f ∈ LogTableModel.ignoreFilters [ruleShowAM, ruleIgnoreFatal],
      LogTableModel.matchFilter compileNone f entE = true) ∧
    LogTableModel.evaluateLog compileNone [ruleShowAM, ruleIgnoreFatal] entE
      = none ∧
    LogTableModel.evaluateLog compileNone [ruleShowOther, ruleShowAM] entE
      = some (some ruleShowAM) :=
  ⟨⟨ruleIgnoreFatal, by decide, by decide⟩,
    (C3_evaluate_precedence compileNone [ruleShowAM, ruleIgnoreFatal] entE).1
      ⟨ruleIgnoreFatal, by decide, by decide⟩,
    ((C3_evaluate_precedence compileNone [ruleShowOther, ruleShowAM] entE).2.1
        (by decide) (by decide)).2.1 [ruleShowOther] ruleShowAM []
        (by decide) (by decide) (by decide)⟩

/-! ## filterPass structure lemmas (shared helpers) -/

/-- The matched-rule list of a pass is as long as its index list. -/
theorem filterPass_length (compile : RegexCompiler) (fs : List FilterRule) :
    ∀ (logs : List LogEntry) (start : Nat),
      (LogTableModel.filterPass compile fs logs start).2.length =
        (LogTableModel.filterPass compile fs logs start).1.length
  | [], _ => rfl
  | log :: rest, start => by
    simp only [LogTableModel.filterPass]
    cases h : LogTableModel.evaluateLog compile fs log with
    | none =>
      simp only [h]
      exact filterPass_length compile fs rest (start + 1)
    | some mf =>
      simp only [h, List.length_cons]
      rw [filterPass_length compile fs rest (start + 1)]

/-- A pass over a concatenation is the concatenation of the passes, the
second shifted by the length of the first. -/
theorem filterPass_append (compile : RegexCompiler) (fs : List FilterRule) :
    ∀ (l1 l2 : List LogEntry) (start : Nat),
      LogTableModel.filterPass compile fs (l1 ++ l2) start =
        ((LogTableModel.filterPass compile fs l1 start).1 ++
            (LogTableModel.filterPass compile fs l2 (start + l1.length)).1,
          (LogTableModel.filterPass compile fs l1 start).2 ++
            (LogTableModel.filterPass compile fs l2 (start + l1.length)).2)
  | [], l2, start => by simp [LogTableModel.filterPass]
  | log :: l1, l2, start => by
    have harith : start + 1 + l1.length = start + (l1.length + 1) := by omega
    have IH := filterPass_append compile fs l1 l2 (start + 1)
    rw [harith] at IH
    simp only [List.cons_append, LogTableModel.filterPass, List.length_cons]
    cases h : LogTableModel.evaluateLog compile fs log with
    | none => simp [h, IH]
    | some mf => simp [h, IH]

/-- Indices produced by a pass lie in `[start, start + length)`. -/
theorem filterPass_bounds (compile : RegexCompiler) (fs : List FilterRule) :
    ∀ (logs : List LogEntry) (start : Nat),
      ∀ i ∈ (LogTableModel.filterPass compile fs logs start).1,
        start ≤ i ∧ i < start + logs.length
  | [], start => by simp [LogTableModel.filterPass]
  | log :: rest, start => by
    intro i hi
    simp only [LogTableModel.filterPass] at hi
    cases h : LogTableModel.evaluateLog compile fs log with
    | none =>
      simp only [h] at hi
      have := filterPass_bounds compile fs rest (start + 1) i hi
      simp only [List.length_cons]
      omega
    | some mf =>
      simp only [h] at hi
      simp only [List.length_cons]
      rcases List.mem_cons.mp hi with rfl | hi
      · omega
      · have := filterPass_bounds compile fs rest (start + 1) i hi
        omega

/-- The index list of a pass is strictly increasing. -/
theorem filterPass_sorted (compile : RegexCompiler) (fs : List FilterRule) :
    ∀ (logs : List LogEntry) (start : Nat),
      (LogTableModel.filterPass compile fs logs start).1.Pairwise (· < ·)
  | [], start => by simp [LogTableModel.filterPass]
  | log :: rest, start => by
    simp only [LogTableModel.filterPass]
    cases h : LogTableModel.evaluateLog compile fs log with
    | none =>
      simp only [h]
      exact filterPass_sorted compile fs rest (start + 1)
    | some mf =>
      simp only [h]
      refine List.pairwise_cons.mpr
        ⟨?_, filterPass_sorted compile fs rest (start + 1)⟩
      intro j hj
      have := filterPass_bounds compile fs rest (start + 1) j hj
      omega

/-- `add_logs` written without its two short-circuit guards (both are
no-ops semantically: an empty batch contributes empty passes, and when no
record survives both extensions are with the empty list). -/
theorem addLogs_eq (compile : RegexCompiler) (s : LogTableModel.ModelState)
    (logs : List LogEntry) :
    LogTableModel.addLogs compile s logs =
      ⟨s.allLogs ++ logs,
        s.filteredIndices ++
          (LogTableModel.filterPass compile s.filters logs s.allLogs.length).1,
        s.matchedFilters ++
          (LogTableModel.filterPass compile s.filters logs s.allLogs.length).2,
        s.filters⟩ := by
  cases s with
  | mk a fi mf fl =>
    unfold LogTableModel.addLogs
    by_cases hl : logs = []
    · subst hl
      simp [LogTableModel.filterPass]
    · rw [if_neg hl]
      by_cases hnf : (LogTableModel.filterPass compile fl logs a.length).1 = []
      · have h2 := filterPass_length compile fl logs a.length
        rw [hnf] at h2
        have hnf2 : (LogTableModel.filterPass compile fl logs a.length).2 = [] :=
          List.length_eq_zero.mp (by simpa using h2)
        simp [hnf, hnf2]
      · simp [hnf]

/-! ## C2 — one-by-one append equals one full rebuild -/

/-- Appending records one at a time onto a canonical state stays
canonical. -/
theorem foldl_addLogs_single (compile : RegexCompiler) (fs : List FilterRule) :
    ∀ (rs pre : List LogEntry),
      rs.foldl (fun s r => LogTableModel.addLogs compile s [r])
          (canonState compile fs pre) = canonState compile fs (pre ++ rs)
  | [], pre => by simp
  | r :: rs, pre => by
    rw [List.foldl_cons]
    have hstep : LogTableModel.addLogs compile (canonState compile fs pre) [r] =
        canonState compile fs (pre ++ [r]) := by
      rw [addLogs_eq]
      unfold canonState
      rw [filterPass_append compile fs pre [r] 0]
      simp
    rw [hstep, foldl_addLogs_single compile fs rs (pre ++ [r]),
      List.append_assoc, List.singleton_append]

/-- C2: for any fixed rule list, appending the records one by one via
`add_logs` yields exactly the `_filtered_indices` and `_matched_filters`
of a single `set_filters` rebuild over the accumulated `_all_logs`. -/
theorem C2_append_equiv (compile : RegexCompiler) (fs : List FilterRule)
    (rs : List LogEntry) :
    (rs.foldl (fun s r => LogTableModel.addLogs compile s [r])
        (LogTableModel.setFilters compile LogTableModel.initState fs)).filteredIndices =
      (LogTableModel.setFilters compile
        { LogTableModel.initState with allLogs := rs } fs).filteredIndices ∧
    (rs.foldl (fun s r => LogTableModel.addLogs compile s [r])
        (LogTableModel.setFilters compile LogTableModel.initState fs)).matchedFilters =
      (LogTableModel.setFilters compile
        { LogTableModel.initState with allLogs := rs } fs).matchedFilters := by
  have hinit : LogTableModel.setFilters compile LogTableModel.initState fs =
      canonState compile fs [] := rfl
  have hrhs : LogTableModel.setFilters compile
      { LogTableModel.initState with allLogs := rs } fs =
      canonState compile fs rs := rfl
  rw [hinit, hrhs, foldl_addLogs_single compile fs rs [], List.nil_append]
  exact ⟨rfl, rfl⟩

/-! ## C5 — derived-sequence invariant under add/set/clear -/

/-- One operation preserves the store invariant. -/
theorem storeInv_step (compile : RegexCompiler) (s : LogTableModel.ModelState)
    (op : LogTableModel.ModelOp) (h : StoreInv s) :
    StoreInv (LogTableModel.step compile s op) := by
  obtain ⟨hsort, hbound, hlen⟩ := h
  cases op with
  | addOp logs =>
    show StoreInv (LogTableModel.addLogs compile s logs)
    rw [addLogs_eq]
    refine ⟨?_, ?_, ?_⟩
    · refine List.pairwise_append.mpr ⟨hsort,
        filterPass_sorted compile s.filters logs s.allLogs.length, ?_⟩
      intro i hi j hj
      have h1 := hbound i hi
      have h2 := filterPass_bounds compile s.filters logs s.allLogs.length j hj
      omega
    · intro i hi
      simp only [List.length_append]
      rcases List.mem_append.mp hi with hi | hi
      · have := hbound i hi; omega
      · have := filterPass_bounds compile s.filters logs s.allLogs.length i hi
        omega
    · simp only [List.length_append, hlen,
        filterPass_length compile s.filters logs s.allLogs.length]
  | setOp fs2 =>
    refine ⟨filterPass_sorted compile fs2 s.allLogs 0, ?_,
      filterPass_length compile fs2 s.allLogs 0⟩
    intro i hi
    have hb := filterPass_bounds compile fs2 s.allLogs 0 i hi
    have hkeep : (LogTableModel.step compile s (.setOp fs2)).allLogs.length =
        s.allLogs.length := rfl
    omega
  | clearOp =>
    have hclear : LogTableModel.step compile s .clearOp =
        ⟨[], [], [], s.filters⟩ := rfl
    rw [hclear]
    exact ⟨List.Pairwise.nil, by simp, rfl⟩

/-- The invariant is preserved along any operation sequence. -/
theorem storeInv_foldl (compile : RegexCompiler) :
    ∀ (ops : List LogTableModel.ModelOp) (s : LogTableModel.ModelState),
      StoreInv s → StoreInv (ops.foldl (LogTableModel.step compile) s)
  | [], _, h => h
  | op :: ops, s, h =>
    storeInv_foldl compile ops _ (storeInv_step compile s op h)

/-- C5: after any sequence of add_logs, set_filters and clear starting
from a fresh model, `_filtered_indices` is strictly increasing, every
index is valid for `_all_logs`, and `_matched_filters` runs parallel to
`_filtered_indices`. -/
theorem C5_store_invariant (compile : RegexCompiler)
    (ops : List LogTableModel.ModelOp) :
    (ops.foldl (LogTableModel.step compile)
        LogTableModel.initState).filteredIndices.Pairwise (· < ·) ∧
    (∀ i ∈ (ops.foldl (LogTableModel.step compile)
        LogTableModel.initState).filteredIndices,
      i < (ops.foldl (LogTableModel.step compile)
        LogTableModel.initState).allLogs.length) ∧
    (ops.foldl (LogTableModel.step compile)
        LogTableModel.initState).matchedFilters.length =
      (ops.foldl (LogTableModel.step compile)
        LogTableModel.initState).filteredIndices.length :=
  storeInv_foldl compile ops LogTableModel.initState
    ⟨List.Pairwise.nil, by simp [LogTableModel.initState], rfl⟩

/-- C5 witness: the invariant instantiated on a concrete run (index 0
survives the Show filter, so membership is dischargeable). -/
theorem C5_witness :
    (opsSample.foldl (LogTableModel.step compileNone)
        LogTableModel.initState).filteredIndices.Pairwise (· < ·) ∧
    0 < (opsSample.foldl (LogTableModel.step compileNone)
        LogTableModel.initState).allLogs.length ∧
    (opsSample.foldl (LogTableModel.step compileNone)
        LogTableModel.initState).matchedFilters.length =
      (opsSample.foldl (LogTableModel.step compileNone)
        LogTableModel.initState).filteredIndices.length :=
  ⟨(C5_store_invariant compileNone opsSample).1,
    (C5_store_invariant compileNone opsSample).2.1 0 (by decide),
    (C5_store_invariant compileNone opsSample).2.2⟩

/-! ## C7 — forward-only context window -/

/-- Once the error record has been found, the scan loop appends the
`ctxExt` extension of the remaining buffer. -/
theorem ctxLoop_found (e : LogRecord) (cl : Nat) :
    ∀ (rest ctx : List LogRecord),
      LogBuffer.ctxLoop e cl rest true ctx =
        ctx ++ LogBuffer.ctxExt e cl rest ctx.length
  | [], ctx => by simp [LogBuffer.ctxLoop, LogBuffer.ctxExt]
  | log :: rest, ctx => by
    have hlen : (ctx ++ [log]).length = ctx.length + 1 := by simp
    by_cases hlog : log = e
    · simp only [LogBuffer.ctxLoop, LogBuffer.ctxExt, if_pos hlog]
      rw [ctxLoop_found e cl rest (ctx ++ [log]), hlen, List.append_assoc,
        List.singleton_append]
    · simp only [LogBuffer.ctxLoop, LogBuffer.ctxExt, if_neg hlog]
      by_cases hbreak : cl * 2 + 1 ≤ ctx.length + 1
      · rw [if_pos (by rw [hlen]; exact hbreak), if_pos hbreak]
      · rw [if_neg (by rw [hlen]; exact hbreak), if_neg hbreak,
          ctxLoop_found e cl rest (ctx ++ [log]), hlen, List.append_assoc,
          List.singleton_append]

/-- The extension is a prefix of the remaining buffer: forward-only, in
order, nothing from before the match point. -/
theorem ctxExt_is_take (e : LogRecord) (cl : Nat) :
    ∀ (rest : List LogRecord) (n : Nat),
      ∃ m, LogBuffer.ctxExt e cl rest n = rest.take m
  | [], _ => ⟨0, rfl⟩
  | log :: rest, n => by
    simp only [LogBuffer.ctxExt]
    by_cases hlog : log = e
    · obtain ⟨m, hm⟩ := ctxExt_is_take e cl rest (n + 1)
      exact ⟨m + 1, by rw [if_pos hlog, hm]; rfl⟩
    · by_cases hbreak : cl * 2 + 1 ≤ n + 1
      · exact ⟨1, by rw [if_neg hlog, if_pos hbreak]; rfl⟩
      · obtain ⟨m, hm⟩ := ctxExt_is_take e cl rest (n + 1)
        exact ⟨m + 1, by rw [if_neg hlog, if_neg hbreak, hm]; rfl⟩

/-- When no later record equals the error record, the break bound holds:
the accumulated length never exceeds `context_lines*2 + 1`. -/
theorem ctxExt_length_le (e : LogRecord) (cl : Nat) :
    ∀ (rest : List LogRecord) (n : Nat), (∀ x ∈ rest, x ≠ e) →
      n + 1 ≤ cl * 2 + 1 →
      n + (LogBuffer.ctxExt e cl rest n).length ≤ cl * 2 + 1
  | [], n, _, hn => by simp [LogBuffer.ctxExt]; omega
  | log :: rest, n, hdup, hn => by
    have hlog : log ≠ e := hdup log (List.mem_cons_self log rest)
    simp only [LogBuffer.ctxExt, if_neg hlog]
    by_cases hbreak : cl * 2 + 1 ≤ n + 1
    · rw [if_pos hbreak]
      simp only [List.length_singleton]
      omega
    · rw [if_neg hbreak]
      have IH := ctxExt_length_le e cl rest (n + 1)
        (fun x hx => hdup x (List.mem_cons_of_mem log hx)) (by omega)
      simp only [List.length_cons]
      omega

/-- If nothing in the buffer locates the error record, the scan collects
nothing. -/
theorem ctxLoop_no_hit (e : LogRecord) (cl : Nat) :
    ∀ (buf ctx : List LogRecord), (∀ x ∈ buf, ¬ LogBuffer.locHit e x) →
      LogBuffer.ctxLoop e cl buf false ctx = ctx
  | [], _, _ => rfl
  | log :: rest, ctx, hno => by
    have h1 := hno log (List.mem_cons_self log rest)
    have hlog : ¬ log = e := fun hh => h1 (Or.inl hh)
    have hts : ¬ (e.timestamp ≠ "" ∧ log.timestamp = e.timestamp) :=
      fun hh => h1 (Or.inr hh)
    simp only [LogBuffer.ctxLoop, if_neg hlog]
    rw [if_neg hts]
    exact ctxLoop_no_hit e cl rest ctx
      (fun x hx => hno x (List.mem_cons_of_mem log hx))

/-- If some buffer record locates the error record, the buffer splits at
the first such record and the scan returns it followed by the extension. -/
theorem ctxLoop_locate (e : LogRecord) (cl : Nat) :
    ∀ (buf ctx : List LogRecord), (∃ x ∈ buf, LogBuffer.locHit e x) →
      ∃ pre loc rest, buf = pre ++ loc :: rest ∧
        (∀ x ∈ pre, ¬ LogBuffer.locHit e x) ∧ LogBuffer.locHit e loc ∧
        LogBuffer.ctxLoop e cl buf false ctx =
          (ctx ++ [loc]) ++ LogBuffer.ctxExt e cl rest (ctx.length + 1)
  | [], _, h => by simp at h
  | log :: rest, ctx, h => by
    by_cases hhit : LogBuffer.locHit e log
    · refine ⟨[], log, rest, rfl, by simp, hhit, ?_⟩
      have hstep : LogBuffer.ctxLoop e cl (log :: rest) false ctx =
          LogBuffer.ctxLoop e cl rest true (ctx ++ [log]) := by
        by_cases hlog : log = e
        · simp only [LogBuffer.ctxLoop, if_pos hlog]
        · rcases hhit with hl | hts
          · exact absurd hl hlog
          · simp only [LogBuffer.ctxLoop, if_neg hlog]
            rw [if_pos hts]
      rw [hstep, ctxLoop_found e cl rest (ctx ++ [log])]
      simp
    · have hrest : ∃ x ∈ rest, LogBuffer.locHit e x := by
        rcases h with ⟨x, hx, hhx⟩
        rcases List.mem_cons.mp hx with rfl | hx
        · exact absurd hhx hhit
        · exact ⟨x, hx, hhx⟩
      obtain ⟨pre, loc, rest2, heq, hpre, hloc, hrun⟩ :=
        ctxLoop_locate e cl rest ctx hrest
      have hlog : ¬ log = e := fun hh => hhit (Or.inl hh)
      have hts : ¬ (e.timestamp ≠ "" ∧ log.timestamp = e.timestamp) :=
        fun hh => hhit (Or.inr hh)
      refine ⟨log :: pre, loc, rest2, by rw [List.cons_append, heq], ?_, hloc, ?_⟩
      · intro x hx
        rcases List.mem_cons.mp hx with rfl | hx
        · exact hhit
        · exact hpre x hx
      · simp only [LogBuffer.ctxLoop, if_neg hlog]
        rw [if_neg hts]
        exact hrun

/-- C7 (amended): `get_context_around_error` returns empty for an
out-of-range error index or an unlocatable record; otherwise it returns
the first located record followed by a prefix of the subsequent main
buffer (forward-only, in order, never records from before the match
point), and — provided `context_lines ≥ 1`, the error record occurs at
most once in the main buffer, and no other record carries its timestamp —
at most `2*context_lines` subsequent records. -/
theorem C7_context_window (b : LogBuffer) (ei cl : Nat) :
    (b.errorLogs.length ≤ ei → LogBuffer.getContextAroundError b ei cl = []) ∧
    (∀ (h : ei < b.errorLogs.length),
      ((∀ x ∈ b.buffer, ¬ LogBuffer.locHit (b.errorLogs.get ⟨ei, h⟩) x) →
        LogBuffer.getContextAroundError b ei cl = []) ∧
      ((∃ x ∈ b.buffer, LogBuffer.locHit (b.errorLogs.get ⟨ei, h⟩) x) →
        ∃ pre loc rest, b.buffer = pre ++ loc :: rest ∧
          (∀ x ∈ pre, ¬ LogBuffer.locHit (b.errorLogs.get ⟨ei, h⟩) x) ∧
          LogBuffer.locHit (b.errorLogs.get ⟨ei, h⟩) loc ∧
          (∃ m, LogBuffer.getContextAroundError b ei cl = loc :: rest.take m) ∧
          (1 ≤ cl → b.buffer.count (b.errorLogs.get ⟨ei, h⟩) ≤ 1 →
            (∀ x ∈ b.buffer,
              x.timestamp = (b.errorLogs.get ⟨ei, h⟩).timestamp →
              x = b.errorLogs.get ⟨ei, h⟩) →
            (LogBuffer.getContextAroundError b ei cl).length ≤ cl * 2 + 1))) := by
  constructor
  · intro hout
    unfold LogBuffer.getContextAroundError
    rw [dif_neg (by omega)]
  · intro h
    have hget : LogBuffer.getContextAroundError b ei cl =
        LogBuffer.ctxLoop (b.errorLogs.get ⟨ei, h⟩) cl b.buffer false [] := by
      unfold LogBuffer.getContextAroundError
      rw [dif_pos h]
    constructor
    · intro hno
      rw [hget]
      exact ctxLoop_no_hit _ cl b.buffer [] hno
    · intro hex
      obtain ⟨pre, loc, rest, heq, hpre, hloc, hrun⟩ :=
        ctxLoop_locate (b.errorLogs.get ⟨ei, h⟩) cl b.buffer [] hex
      simp only [List.nil_append, List.length_nil, Nat.zero_add] at hrun
      refine ⟨pre, loc, rest, heq, hpre, hloc, ?_, ?_⟩
      · obtain ⟨m, hm⟩ :=
          ctxExt_is_take (b.errorLogs.get ⟨ei, h⟩) cl rest 1
        refine ⟨m, ?_⟩
        rw [hget, hrun, hm, List.singleton_append]
      · intro hcl hcount hts
        have hlocmem : loc ∈ b.buffer := by
          rw [heq]
          exact List.mem_append_right _ (List.mem_cons_self _ _)
        have hloceq : loc = b.errorLogs.get ⟨ei, h⟩ := by
          rcases hloc with hl | hl
          · exact hl
          · exact hts loc hlocmem hl.2
        have hnotmem : b.errorLogs.get ⟨ei, h⟩ ∉ rest := by
          intro hmem
          have h1 : 0 < rest.count (b.errorLogs.get ⟨ei, h⟩) :=
            List.count_pos_iff.mpr hmem
          have h2 : b.buffer.count (b.errorLogs.get ⟨ei, h⟩) =
              pre.count (b.errorLogs.get ⟨ei, h⟩) +
                (rest.count (b.errorLogs.get ⟨ei, h⟩) + 1) := by
            rw [heq, List.count_append, hloceq, List.count_cons_self]
          omega
        have hdup : ∀ x ∈ rest, x ≠ b.errorLogs.get ⟨ei, h⟩ := by
          intro x hx hxe
          exact hnotmem (hxe ▸ hx)
        have hlenext := ctxExt_length_le (b.errorLogs.get ⟨ei, h⟩) cl rest 1
          hdup (by omega)
        rw [hget, hrun]
        simp only [List.length_append, List.length_singleton]
        omega

/-- C7 counterexample: the claimed bound of at most `2*context_lines`
subsequent records fails (i) at `context_lines = 0`, where the found
record plus one subsequent record is returned, and (ii) whenever
duplicates of the error record follow the match point, because the
equality branch appends without a break check. -/
theorem C7_counterexample :
    ¬ ((LogBuffer.getContextAroundError ⟨1000, [recE, recI], [recE]⟩ 0 0).length
        ≤ 0 * 2 + 1) ∧
    ¬ ((LogBuffer.getContextAroundError
          ⟨1000, [recE, recE, recE, recE, recE], [recE]⟩ 0 1).length
        ≤ 1 * 2 + 1) := by
  decide

/-- C7 witness: a buffer in which the error record is not locatable yields
the empty context. -/
theorem C7_witness :
    LogBuffer.getContextAroundError ⟨1000, [recI], [recE]⟩ 0 10 = [] :=
  ((C7_context_window ⟨1000, [recI], [recE]⟩ 0 10).2 (by decide)).1 (by decide)
